import Mathlib

/-!
Verification of the table-classification-and-unification engine of
`src/app.py` (billing-code table extraction).  The Python source is
shallowly embedded below: strings are `List Char`, optional cells are
`Option (List Char)`, and every regular expression of the source is
translated to an executable Boolean matcher with Python `re` semantics
(`$` also matches immediately before one trailing newline).
-/

set_option autoImplicit false

namespace App

/-- Strings of the embedding: Python `str` as a list of characters. -/
abbrev Str := List Char

/-- A table cell as produced by pdfplumber: `None` or a string. -/
abbrev Cell := Option Str

/-- A table row: an ordered list of cells (rows may be short). -/
abbrev Row := List Cell

/-- A raw grid / table: an ordered list of rows. -/
abbrev Grid := List Row

/-- ASCII decimal digit, the `\d` character class of the source patterns. -/
def isAsciiDigit (c : Char) : Bool := (('0' ≤ c) && (c ≤ '9'))

/-- ASCII letter, the `[A-Za-z]` character class of the source patterns. -/
def isAsciiAlpha (c : Char) : Bool :=
  ((('A' ≤ c) && (c ≤ 'Z')) || (('a' ≤ c) && (c ≤ 'z')))

/-- Python whitespace (`str.strip` / `\s`): space, tab, newline, CR, VT, FF. -/
def isPySpace (c : Char) : Bool :=
  ((c == ' ') || (c == '\t') || (c == '\n') || (c == '\r') ||
   (c == '\x0b') || (c == '\x0c'))

/-- Python `str.lower` restricted to ASCII letters. -/
def pyToLower (c : Char) : Char :=
  if (('A' ≤ c) && (c ≤ 'Z')) then Char.ofNat (c.toNat + 32) else c

/-- Python `str.lower`. -/
def pyLower (s : Str) : Str := s.map pyToLower

/-- Python `str.strip()`: drop leading and trailing whitespace. -/
def pyStrip (s : Str) : Str :=
  ((s.dropWhile isPySpace).reverse.dropWhile isPySpace).reverse

/-- Python `cell or ""` on an optional cell. -/
def cellStr (c : Cell) : Str := c.getD []

mutual

/-- Python `re.sub(r"\s+", " ", s)`: collapse every whitespace run to one space. -/
def collapseWS : Str → Str
  | [] => []
  | c :: cs =>
    if isPySpace c then ' ' :: skipWS cs
    else c :: collapseWS cs

/-- Helper of `collapseWS`: inside a whitespace run whose single space has
already been emitted, drop the remaining whitespace. -/
def skipWS : Str → Str
  | [] => []
  | c :: cs =>
    if isPySpace c then skipWS cs
    else c :: collapseWS cs

end

/-- Does `hay` start with `needle`? (helper for Python `in`). -/
def strStartsWith : Str → Str → Bool
  | _, [] => true
  | [], _ :: _ => false
  | h :: t, n :: m => ((h == n) && strStartsWith t m)

/-- Python substring test `needle in hay`. -/
def strContains : Str → Str → Bool
  | [], needle => strStartsWith [] needle
  | h :: t, needle => (strStartsWith (h :: t) needle || strContains t needle)

/-- Python `s.split("\n")[0]`: the first line of a string. -/
def firstLine (s : Str) : Str := (s.splitOn '\n').headD []

/-- Drop one trailing newline: Python `$` in `re.match` also matches just
before a newline that ends the string, so an anchored pattern accepts an
optional final `'\n'`. -/
def stripTrailingNL (s : Str) : Str :=
  match s.getLast? with
  | some c => if c = '\n' then s.dropLast else s
  | none => s

/-- Value shape `one letter followed by 4 digits` (body of `_HCPCS_RE`). -/
def oneLetterFourDigits : Str → Bool
  | c :: ds => (isAsciiAlpha c && (ds.length == 4) && ds.all isAsciiDigit)
  | [] => false

/-- Value shape `exactly 5 digits` (body of `_CPT_RE`). -/
def exactlyFiveDigits (s : Str) : Bool :=
  ((s.length == 5) && s.all isAsciiDigit)

/-- Value shape `3-4 digits` (body of `_REVENUE_RE`). -/
def threeOrFourDigits (s : Str) : Bool :=
  (((s.length == 3) || (s.length == 4)) && s.all isAsciiDigit)

/-- Broad code shape: optionally 1-2 letters then 3-5 digits
(body of `_CODE_LIKE_RE`, pattern `[A-Za-z]{0,2}\d{3,5}` anchored). -/
def codeLikeCore (s : Str) : Bool :=
  let a := s.takeWhile isAsciiAlpha
  let d := s.drop a.length
  ((a.length ≤ 2 : Bool) && (3 ≤ d.length : Bool) && (d.length ≤ 5 : Bool) &&
   d.all isAsciiDigit)

/-- Date shape `\d{1,2}/\d{1,2}/\d{2,4}` (body of `_DATE_RE`). -/
def dateCore (s : Str) : Bool :=
  let d1 := s.takeWhile isAsciiDigit
  let s1 := s.drop d1.length
  match s1 with
  | '/' :: s2 =>
    let d2 := s2.takeWhile isAsciiDigit
    let s3 := s2.drop d2.length
    (match s3 with
     | '/' :: s4 =>
       ((1 ≤ d1.length : Bool) && (d1.length ≤ 2 : Bool) &&
        (1 ≤ d2.length : Bool) && (d2.length ≤ 2 : Bool) &&
        (2 ≤ s4.length : Bool) && (s4.length ≤ 4 : Bool) &&
        s4.all isAsciiDigit)
     | _ => false)
  | _ => false

/-- `_HCPCS_RE.match`: anchored match with Python `$` semantics. -/
def hcpcsRe (s : Str) : Bool := oneLetterFourDigits (stripTrailingNL s)

/-- `_CPT_RE.match`: anchored match with Python `$` semantics. -/
def cptRe (s : Str) : Bool := exactlyFiveDigits (stripTrailingNL s)

/-- `_REVENUE_RE.match`: anchored match with Python `$` semantics. -/
def revenueRe (s : Str) : Bool := threeOrFourDigits (stripTrailingNL s)

/-- `_CODE_LIKE_RE.match`: anchored match with Python `$` semantics. -/
def codeLikeRe (s : Str) : Bool := codeLikeCore (stripTrailingNL s)

/-- `_DATE_RE.match`: anchored match with Python `$` semantics. -/
def dateRe (s : Str) : Bool := dateCore (stripTrailingNL s)

/-- The label string returned for HCPCS codes. -/
def lblHCPCS : Str := (r"HCPCS").data

/-- The label string returned for CPT codes. -/
def lblCPT : Str := (r"CPT").data

/-- The label string returned for revenue codes. -/
def lblRevenue : Str := (r"Revenue").data

/-- `_classify_code` of `src/app.py`: label a code from the column-header
hint first, then from the value shape, defaulting to CPT. -/
def classify_code (code header_hint : Str) : Str :=
  let h := pyLower header_hint
  if strContains h ((r"hcpcs").data) then lblHCPCS
  else if strContains h ((r"cpt").data) then lblCPT
  else if strContains h ((r"revenue").data) then lblRevenue
  else if hcpcsRe code then lblHCPCS
  else if cptRe code then lblCPT
  else if revenueRe code then lblRevenue
  else lblCPT

/-- The classifier as literally described by the spec (section 4.3): header
hint containing hcpcs/cpt/revenue wins, else the plain value shapes (one
letter + 4 digits, exactly 5 digits, 3-4 digits), otherwise CPT.  Used as
the reference for the refinement claim about `classify_code`. -/
def classifySpecDesc (code header_hint : Str) : Str :=
  let h := pyLower header_hint
  if strContains h ((r"hcpcs").data) then lblHCPCS
  else if strContains h ((r"cpt").data) then lblCPT
  else if strContains h ((r"revenue").data) then lblRevenue
  else if oneLetterFourDigits code then lblHCPCS
  else if exactlyFiveDigits code then lblCPT
  else if threeOrFourDigits code then lblRevenue
  else lblCPT

/-- `_is_policy_revision_table` of `src/app.py`: detect revision-history
tables by their header cells or by a leading date cell. -/
def is_policy_revision_table (table : Grid) : Bool :=
  match table with
  | [] => false
  | r0 :: _ =>
    if r0 = [] then false
    else
      let first_row := r0.map (fun c => pyLower (pyStrip (cellStr c)))
      if (first_row.any (fun c => strContains c ((r"date").data)) &&
          first_row.any (fun c =>
            (strContains c ((r"section").data) ||
             strContains c ((r"change").data) ||
             strContains c ((r"revised").data)))) then true
      else
        let first_cell := pyStrip (cellStr (r0.headD none))
        dateRe first_cell

/-- Code-column scan over the collapsed header cells (loop at the top of the
per-table body of `extract_code_tables`): first header containing `code`,
skipping ICD-10 headers and headers longer than `_MAX_CODE_HEADER_LEN`. -/
def findCodeColAux (i : Nat) : List Str → Option Nat
  | [] => none
  | h :: tl =>
    let low := pyLower h
    if (strContains low ((r"code").data) &&
        !strContains low ((r"icd-10").data) &&
        !strContains low ((r"icd10").data) &&
        (h.length ≤ 50 : Bool)) then some i
    else findCodeColAux (i + 1) tl

/-- Probe of a row's first cell used by the continuation fallback: strip the
cell, take its first line, strip it, and test the broad code shape. -/
def probeRowIsCode (row : Row) : Bool :=
  match row with
  | [] => false
  | c :: _ => codeLikeRe (pyStrip (firstLine (pyStrip (cellStr c))))

/-- Column Locator of `extract_code_tables`: find the code column from the
headers, or detect a headerless continuation table (code column 0, row 0 is
data), probing later rows when row 0's first cell is empty.  Returns
`(code_col, is_continuation)`. -/
def locateCodeCol : Grid → Option (Nat × Bool)
  | [] => none
  | r0 :: rest =>
    if r0 = [] then none
    else
      let raw_headers := r0.map (fun c => collapseWS (pyStrip (cellStr c)))
      match findCodeColAux 0 raw_headers with
      | some i => some (i, false)
      | none =>
        let first_cell_val := pyStrip (cellStr (r0.headD none))
        let fl := pyStrip (firstLine first_cell_val)
        if codeLikeRe fl then some (0, true)
        else if first_cell_val = [] then
          if rest.any probeRowIsCode then some (0, true) else none
        else none

/-- First code-like first-column value of a continuation table (the
`for probe_row in table` loop deriving `code_header`): the raw first cell is
split on newlines first, then the first line is stripped. -/
def firstContCode : Grid → Option Str
  | [] => none
  | row :: tl =>
    match row with
    | [] => firstContCode tl
    | c :: _ =>
      let pv := pyStrip (firstLine (cellStr c))
      if codeLikeRe pv then some pv else firstContCode tl

/-- Header hint recorded for a continuation table: the shape-derived type
label of the first code-like first-column value, or empty. -/
def contCodeHeader (g : Grid) : Str :=
  match firstContCode g with
  | some v => classify_code v []
  | none => []

/-- Cell access of the row loops: `(row[i] or "").strip() if i < len(row)
else ""` — an index beyond the row reads as the empty string. -/
def cellAt (row : Row) (i : Nat) : Str :=
  if i < row.length then pyStrip (cellStr (row.getD i none)) else []

/-- Peek helper (multi-column detection): the first non-empty stripped cell
of `row` at an index other than `code_col`. -/
def peekCell (code_col : Nat) (row : Row) : Option Str :=
  (row.enum.filterMap (fun p =>
    if p.1 = code_col then none
    else
      let s := pyStrip (cellStr p.2)
      if s = [] then none else some s)).head?

/-- Multi-column detection loop: find the first data row with a non-empty
non-code-column cell and decide by whether its first line looks like a code. -/
def multiColPeek (code_col : Nat) : Grid → Bool
  | [] => false
  | row :: tl =>
    match peekCell code_col row with
    | none => multiColPeek code_col tl
    | some cell => codeLikeRe (pyStrip (firstLine cell))

/-- Inner code collection of the multi-column mode: walk the newline-split
lines of the row's cells, keep stripped lines matching the code shape, and
deduplicate against (and extend) the `seen` set.  Returns the extended seen
set and the newly appended codes, in order. -/
def collectCodes (seen : List Str) : List Str → List Str × List Str
  | [] => (seen, [])
  | l :: tl =>
    let cl := pyStrip l
    if cl = [] then collectCodes seen tl
    else if !codeLikeRe cl then collectCodes seen tl
    else if cl ∈ seen then collectCodes seen tl
    else
      let r := collectCodes (cl :: seen) tl
      (r.1, cl :: r.2)

/-- Is this data row a free-standing annotation row of the multi-column
mode: exactly one non-empty stripped cell whose first line does not look
like a code? -/
def isAnnotationRow (row : Row) : Bool :=
  let cells := row.map (fun c => pyStrip (cellStr c))
  let non_empty := cells.filter (fun c => !(c == []))
  match non_empty with
  | [] => false
  | c :: rest => (rest.isEmpty && !codeLikeRe (pyStrip (firstLine c)))

/-- Main loop of the multi-column code mode: accumulate the pending note,
the seen-code set and the extracted `(code, [])` rows. -/
def multiColLoop (note : Str) (seen : List Str)
    (rows : List (Str × List Str)) : Grid → Str × List (Str × List Str)
  | [] => (note, rows)
  | row :: tl =>
    let cells := row.map (fun c => pyStrip (cellStr c))
    let non_empty := cells.filter (fun c => !(c == []))
    match non_empty with
    | [] => multiColLoop note seen rows tl
    | c :: restNE =>
      if (restNE.isEmpty && !codeLikeRe (pyStrip (firstLine c))) then
        multiColLoop (collapseWS c) seen rows tl
      else
        let lines := non_empty.flatMap (fun cl => cl.splitOn '\n')
        let r := collectCodes seen lines
        multiColLoop note r.1 (rows ++ r.2.map (fun cd => (cd, ([] : List Str)))) tl

/-- Multi-column code extraction: run the loop, then attach the final note
(if any) uniformly to every extracted row; the extra column is `Note`. -/
def multiColExtract (dataRows : Grid) : List Str × List (Str × List Str) :=
  let r := multiColLoop [] [] [] dataRows
  if r.1 = [] then ([], r.2)
  else ([(r"Note").data], r.2.map (fun p => (p.1, [r.1])))

/-- Inner code-line loop of the single-code-column mode: keep stripped
lines of the code cell that match the code shape, deduplicating on the
`(code, other_vals)` key.  Returns the extended seen set and the appended
rows, in order. -/
def singleRowCodes (seen : List (Str × List Str)) (other_vals : List Str) :
    List Str → List (Str × List Str) × List (Str × List Str)
  | [] => (seen, [])
  | l :: tl =>
    let cl := pyStrip l
    if cl = [] then singleRowCodes seen other_vals tl
    else if !codeLikeRe cl then singleRowCodes seen other_vals tl
    else if (cl, other_vals) ∈ seen then singleRowCodes seen other_vals tl
    else
      let r := singleRowCodes ((cl, other_vals) :: seen) other_vals tl
      (r.1, (cl, other_vals) :: r.2)

/-- Row loop of the single-code-column mode: take the code cell (empty when
the row is short), skip empty code cells, read the other columns at the
`other_indices`, and extract the code lines of the cell. -/
def singleColLoop (code_col : Nat) (other_indices : List Nat)
    (seen : List (Str × List Str)) : Grid → List (Str × List Str)
  | [] => []
  | row :: tl =>
    let code_cell := cellAt row code_col
    if code_cell = [] then singleColLoop code_col other_indices seen tl
    else
      let other_vals := other_indices.map (cellAt row)
      let r := singleRowCodes seen other_vals (code_cell.splitOn '\n')
      r.2 ++ singleColLoop code_col other_indices r.1 tl

/-- A per-table extraction result: the entry appended to `raw_tables`. -/
structure RawTable where
  codeHeader : Str
  otherHeaders : List Str
  rows : List (Str × List Str)
deriving DecidableEq, Repr

/-- Per-table body of `extract_code_tables`: filter, locate the code
column, pick the header hint, decide the extraction mode, extract and
deduplicate the rows.  `none` when the grid contributes nothing. -/
def processTable (table : Grid) : Option RawTable :=
  match table with
  | [] => none
  | r0 :: rest =>
    if r0 = [] then none
    else if is_policy_revision_table table then none
    else
      match locateCodeCol table with
      | none => none
      | some cb =>
        let code_col := cb.1
        let is_cont := cb.2
        let raw_headers := r0.map (fun c => collapseWS (pyStrip (cellStr c)))
        let code_header :=
          if is_cont then contCodeHeader table else raw_headers.getD code_col []
        let dataRows := if is_cont then table else rest
        let all_other_empty :=
          (is_cont ||
           raw_headers.enum.all (fun p => ((p.1 == code_col) || (p.2 == []))))
        let multi_col := (all_other_empty && multiColPeek code_col dataRows)
        if multi_col then
          let r := multiColExtract dataRows
          if r.2 = [] then none
          else some ⟨code_header, r.1, r.2⟩
        else
          let other_indices := (List.range raw_headers.length).filter
            (fun i => ((!(i == code_col)) &&
              ((!(raw_headers.getD i [] == [])) || all_other_empty || is_cont)))
          let other_headers :=
            if is_cont then other_indices.map (fun _ => (r"Description").data)
            else other_indices.map (fun i =>
              if raw_headers.getD i [] = [] then (r"Description").data
              else raw_headers.getD i [])
          let rows := singleColLoop code_col other_indices [] dataRows
          if rows = [] then none
          else some ⟨code_header, other_headers, rows⟩

/-- Union loop of the Schema Unifier: thread a `(seen, acc)` pair over
column names, appending each not-yet-seen name. -/
def unionLoop : List Str × List Str → List Str → List Str × List Str
  | st, [] => st
  | st, h :: tl =>
    if h ∈ st.1 then unionLoop st tl
    else unionLoop (h :: st.1, st.2 ++ [h]) tl

/-- Union of all non-code column names across the tables, in first-seen
order (the `all_other` list of `extract_code_tables`). -/
def buildUnion (ts : List RawTable) : List Str :=
  (ts.foldl (fun st t => unionLoop st t.otherHeaders) ([], [])).2

/-- Python `list.index`: the first index of `x` in the list (the
`all_other.index(h)` of the column map). -/
def listIdxOf (x : Str) : List Str → Nat
  | [] => 0
  | h :: tl => if h = x then 0 else listIdxOf x tl + 1

/-- Map one table row's other-values into the global column positions
(the `unified` list of the flattening loop): start from empty strings and
write each value at the first index of its column name. -/
def unifiedVals (all_other ohs vals : List Str) : List Str :=
  (ohs.zip vals).foldl
    (fun acc p => acc.set (listIdxOf p.1 all_other) p.2)
    (List.replicate all_other.length [])

/-- Unified output of the engine for a list of accepted tables: headers
`Code`, `Code Type`, then the column union; one output row per data row. -/
def unifyTables (ts : List RawTable) : List Str × List (List Str) :=
  let all_other := buildUnion ts
  let headers := (r"Code").data :: (r"Code Type").data :: all_other
  let rows := ts.flatMap (fun t =>
    t.rows.map (fun cv =>
      cv.1 :: classify_code cv.1 t.codeHeader ::
        unifiedVals all_other t.otherHeaders cv.2))
  (headers, rows)

/-- The pure core of `extract_code_tables`: process every grid of the
document, and unify the accepted tables; `none` when no table survived. -/
def extractTables (grids : List Grid) : Option (List Str × List (List Str)) :=
  let raw_tables := grids.filterMap processTable
  if raw_tables = [] then none else some (unifyTables raw_tables)

/-! ### Basic lemmas about the string helpers -/

theorem head_dropWhile_not {α : Type} (p : α → Bool) (l : List α) {c : α}
    {t : List α} (h : l.dropWhile p = c :: t) : p c = false := by
  induction l with
  | nil => simp [List.dropWhile] at h
  | cons a l ih =>
    rw [List.dropWhile_cons] at h
    split at h
    · exact ih h
    · rename_i hpa
      cases h
      simpa using hpa

theorem stripTrailingNL_pyStrip (s : Str) :
    stripTrailingNL (pyStrip s) = pyStrip s := by
  unfold pyStrip stripTrailingNL
  cases h : (s.dropWhile isPySpace).reverse.dropWhile isPySpace with
  | nil => simp [h]
  | cons c t =>
    have hc : isPySpace c = false := head_dropWhile_not _ _ h
    have hnl : ¬(c = '\n') := by
      intro he
      rw [he] at hc
      simp [isPySpace] at hc
    simp [h, List.getLast?_reverse, hnl]

theorem codeLikeCore_ne_nil {s : Str} (h : codeLikeCore s = true) : s ≠ [] := by
  intro he
  rw [he] at h
  simp [codeLikeCore] at h

theorem codeLikeRe_pyStrip {l : Str} (h : codeLikeRe (pyStrip l) = true) :
    codeLikeCore (pyStrip l) = true ∧ pyStrip l ≠ [] := by
  rw [codeLikeRe, stripTrailingNL_pyStrip] at h
  exact ⟨h, codeLikeCore_ne_nil h⟩

theorem collapseWS_ne_nil {s : Str} (h : s ≠ []) : collapseWS s ≠ [] := by
  cases s with
  | nil => exact absurd rfl h
  | cons c cs =>
    rw [collapseWS]
    split <;> simp

/-! ### Lemmas about the classifier -/

theorem classify_code_label_cases (v : Str) :
    classify_code v [] = lblHCPCS ∨ classify_code v [] = lblCPT ∨
      classify_code v [] = lblRevenue := by
  simp only [classify_code]
  split_ifs <;> simp

theorem classify_code_hint_HCPCS (c : Str) :
    classify_code c lblHCPCS = lblHCPCS := by
  have h : strContains (pyLower lblHCPCS) ((r"hcpcs").data) = true := by decide
  simp [classify_code, h]

theorem classify_code_hint_CPT (c : Str) :
    classify_code c lblCPT = lblCPT := by
  have h1 : strContains (pyLower lblCPT) ((r"hcpcs").data) = false := by decide
  have h2 : strContains (pyLower lblCPT) ((r"cpt").data) = true := by decide
  simp [classify_code, h1, h2]

theorem classify_code_hint_Revenue (c : Str) :
    classify_code c lblRevenue = lblRevenue := by
  have h1 : strContains (pyLower lblRevenue) ((r"hcpcs").data) = false := by decide
  have h2 : strContains (pyLower lblRevenue) ((r"cpt").data) = false := by decide
  have h3 : strContains (pyLower lblRevenue) ((r"revenue").data) = true := by decide
  simp [classify_code, h1, h2, h3]

theorem classify_code_fix (c v : Str) :
    classify_code c (classify_code v []) = classify_code v [] := by
  rcases classify_code_label_cases v with h | h | h <;> rw [h]
  · exact classify_code_hint_HCPCS c
  · exact classify_code_hint_CPT c
  · exact classify_code_hint_Revenue c

/-! ### Skipping a grid that contributes nothing -/

theorem extractTables_skip (gs1 gs2 : List Grid) (g : Grid)
    (h : processTable g = none) :
    extractTables (gs1 ++ g :: gs2) = extractTables (gs1 ++ gs2) := by
  simp [extractTables, List.filterMap_append, List.filterMap_cons, h]

/-! ### Claim C1: classifier precedence -/

/-- C1 counterexample: on the code string `"A1234\n"` (which is not one
letter followed by 4 digits, not exactly 5 digits and not 3-4 digits, so
the claimed precedence gives the default CPT) the classifier returns
HCPCS, because Python `$` lets `_HCPCS_RE` accept one trailing newline. -/
theorem classify_code_trailing_newline_cex :
    classify_code (['A', '1', '2', '3', '4', '\n']) [] = lblHCPCS ∧
    classifySpecDesc (['A', '1', '2', '3', '4', '\n']) [] = lblCPT ∧
    lblHCPCS ≠ lblCPT := by decide

/-- C1 (amended): for every code string not ending in a newline and every
header-hint string, `_classify_code` returns exactly the label of the
claimed precedence (hcpcs/cpt/revenue hint first, then the value shapes,
default CPT); and for every code of exactly 5 digits whose lowercased hint
contains `hcpcs` — in fact for any code at all with such a hint — the
result is HCPCS, not CPT. -/
theorem classify_code_follows_spec (code hint : Str)
    (hnl : stripTrailingNL code = code) :
    classify_code code hint = classifySpecDesc code hint ∧
    (exactlyFiveDigits code = true →
      strContains (pyLower hint) ((r"hcpcs").data) = true →
      classify_code code hint = lblHCPCS) := by
  constructor
  · simp only [classify_code, classifySpecDesc, hcpcsRe, cptRe, revenueRe, hnl]
  · intro _ hh
    simp [classify_code, hh]

/-- C1 witness: the amended theorem at code `99213` and hint `HCPCS Code`. -/
theorem classify_code_follows_spec_witness :
    stripTrailingNL ((r"99213").data) = (r"99213").data ∧
    exactlyFiveDigits ((r"99213").data) = true ∧
    strContains (pyLower ((r"HCPCS Code").data)) ((r"hcpcs").data) = true ∧
    classify_code ((r"99213").data) ((r"HCPCS Code").data) = lblHCPCS :=
  ⟨by decide, by decide, by decide,
    (classify_code_follows_spec ((r"99213").data) ((r"HCPCS Code").data)
      (by decide)).2 (by decide) (by decide)⟩

/-! ### Claim C2: revision-history grids contribute nothing -/

/-- Scenario B grid of the spec. -/
def gScenarioB : Grid :=
  [[some ((r"Date").data), some ((r"Section Revised").data),
    some ((r"Change").data)],
   [some ((r"1/1/2020").data), some ((r"Sec. 2").data),
    some ((r"Updated list").data)]]

/-- C2: a grid whose first row has a cell containing `date` and a cell
containing `section`/`change`/`revised` (case-insensitively), or whose
first row's first cell, trimmed, matches the date shape, is recognised as
a revision table, and the engine contributes zero rows from it: the output
over any document equals the output with that grid removed. -/
theorem revision_grid_contributes_zero_rows (gs1 gs2 : List Grid) (g : Grid)
    (r0 : Row) (hhead : g = r0 :: g.tail)
    (hcond :
      ((r0.map (fun c => pyLower (pyStrip (cellStr c)))).any
          (fun c => strContains c ((r"date").data)) = true ∧
       (r0.map (fun c => pyLower (pyStrip (cellStr c)))).any
          (fun c => (strContains c ((r"section").data) ||
                     strContains c ((r"change").data) ||
                     strContains c ((r"revised").data))) = true) ∨
      (∃ c0 rest, r0 = c0 :: rest ∧ dateCore (pyStrip (cellStr c0)) = true)) :
    is_policy_revision_table g = true ∧
    extractTables (gs1 ++ g :: gs2) = extractTables (gs1 ++ gs2) := by
  have hne : r0 ≠ [] := by
    rcases hcond with ⟨h1, _⟩ | ⟨c0, rest, he, _⟩
    · intro he
      rw [he] at h1
      simp at h1
    · intro hz
      rw [hz] at he
      exact absurd he (by simp)
  have hrev : is_policy_revision_table g = true := by
    rw [hhead, is_policy_revision_table, if_neg hne]
    dsimp only
    rcases hcond with ⟨h1, h2⟩ | ⟨c0, rest, he, hdate⟩
    · simp [h1, h2]
    · have hdr : dateRe (pyStrip (cellStr (r0.headD none))) = true := by
        rw [he]
        simp only [List.headD_cons]
        rw [dateRe, stripTrailingNL_pyStrip]
        exact hdate
      split
      · rfl
      · exact hdr
  have hnone : processTable g = none := by
    rw [hhead]
    rw [processTable]
    rw [if_neg hne]
    rw [← hhead] at *
    rw [hrev]
    simp
  exact ⟨hrev, extractTables_skip gs1 gs2 g hnone⟩

/-- C2 witness: the theorem at the Scenario B grid, alone in a document. -/
theorem revision_grid_contributes_zero_rows_witness :
    is_policy_revision_table gScenarioB = true ∧
    extractTables [gScenarioB] = extractTables [] :=
  revision_grid_contributes_zero_rows [] [] gScenarioB
    (gScenarioB.headD []) (by decide) (Or.inl (by decide))

/-! ### Claim C9: malformed grids are handled cleanly -/

/-- Scenario A grid of the spec (used as a well-formed companion grid). -/
def gScenarioA : Grid :=
  [[some ((r"CPT Code").data), some ((r"Description").data)],
   [some ((r"99213").data), some ((r"Office visit").data)],
   [some ((r"99213").data), some ((r"Office visit").data)]]

/-- C9: an empty grid or a grid whose first row is empty contributes zero
rows, leaving the rest of the document untouched; a cell index beyond a
row's length is read as the empty string, and a `None` cell is read as the
empty string.  (The embedding is total, mirroring that the source guards
every cell access, so no exception can arise from such grids.) -/
theorem malformed_grids_are_harmless (gs1 gs2 : List Grid) (g : Grid)
    (h : g = [] ∨ ∃ rest, g = ([] : Row) :: rest) :
    extractTables (gs1 ++ g :: gs2) = extractTables (gs1 ++ gs2) ∧
    (∀ (row : Row) (i : Nat), row.length ≤ i → cellAt row i = []) ∧
    cellStr none = [] := by
  have hnone : processTable g = none := by
    rcases h with rfl | ⟨rest, rfl⟩
    · rfl
    · rw [processTable]
      simp
  refine ⟨extractTables_skip gs1 gs2 g hnone, ?_, rfl⟩
  intro row i hlen
  rw [cellAt, if_neg (by omega)]

/-- C9 witness: a grid with an empty first row inserted before the
Scenario A grid changes nothing, and cell reads past a row are empty. -/
theorem malformed_grids_are_harmless_witness :
    extractTables ([([] : Row) :: [[some (('x') :: [])]]] ++
        gScenarioA :: []) = extractTables ([] ++ gScenarioA :: []) ∧
    (∀ (row : Row) (i : Nat), row.length ≤ i → cellAt row i = []) ∧
    cellStr none = [] := by
  have h := malformed_grids_are_harmless []
    [gScenarioA] (([] : Row) :: [[some (('x') :: [])]])
    (Or.inr ⟨[[some (('x') :: [])]], rfl⟩)
  exact h

/-! ### Claim C5: headerless continuation detection -/

theorem findCodeColAux_none (i : Nat) (hs : List Str)
    (h : ∀ x ∈ hs, strContains (pyLower x) ((r"code").data) = false) :
    findCodeColAux i hs = none := by
  induction hs generalizing i with
  | nil => rfl
  | cons x tl ih =>
    rw [findCodeColAux]
    have hx := h x (by simp)
    simp only [hx]
    simp only [Bool.false_and, Bool.and_false]
    exact ih (i + 1) (fun y hy => h y (by simp [hy]))

/-- Scenario D grid of the spec: a headerless continuation page. -/
def gScenarioD : Grid :=
  [[some ((r"A1234").data), some ((r"widget").data)],
   [some ((r"A5678").data), some ((r"gadget").data)]]

/-- C5: when no collapsed header cell contains `code` and row 0's first
cell's first line matches the broad code shape, the Column Locator picks
column 0 as the code column and flags the grid as a continuation (row 0 is
data); on the Scenario D grid both rows are extracted, the codes classify
as HCPCS, and the second column is labeled Description. -/
theorem headerless_continuation_detected (r0 : Row) (rest : List Row)
    (hne : r0 ≠ [])
    (hnocode : ∀ c ∈ r0,
      strContains (pyLower (collapseWS (pyStrip (cellStr c))))
        ((r"code").data) = false)
    (hshape : codeLikeRe
      (pyStrip (firstLine (pyStrip (cellStr (r0.headD none))))) = true) :
    locateCodeCol (r0 :: rest) = some (0, true) ∧
    extractTables [gScenarioD] =
      some ([(r"Code").data, (r"Code Type").data, (r"Description").data],
        [[(r"A1234").data, (r"HCPCS").data, (r"widget").data],
         [(r"A5678").data, (r"HCPCS").data, (r"gadget").data]]) := by
  constructor
  · rw [locateCodeCol, if_neg hne]
    dsimp only
    rw [findCodeColAux_none 0 _ (by
      intro x hx
      rw [List.mem_map] at hx
      obtain ⟨c, hc, rfl⟩ := hx
      exact hnocode c hc)]
    rw [if_pos hshape]
  · decide

/-- C5 witness: the theorem at the Scenario D grid itself. -/
theorem headerless_continuation_detected_witness :
    locateCodeCol gScenarioD = some (0, true) ∧
    extractTables [gScenarioD] =
      some ([(r"Code").data, (r"Code Type").data, (r"Description").data],
        [[(r"A1234").data, (r"HCPCS").data, (r"widget").data],
         [(r"A5678").data, (r"HCPCS").data, (r"gadget").data]]) :=
  headerless_continuation_detected
    [some ((r"A1234").data), some ((r"widget").data)]
    [[some ((r"A5678").data), some ((r"gadget").data)]]
    (by decide) (by decide) (by decide)

/-! ### Invariants of the row-extraction loops -/

theorem collectCodes_spec (lines seen : List Str) :
    (∀ c ∈ (collectCodes seen lines).2,
      codeLikeCore c = true ∧ c ≠ [] ∧ c ∉ seen) ∧
    (collectCodes seen lines).2.Nodup ∧
    (∀ c, c ∈ (collectCodes seen lines).1 ↔
      c ∈ seen ∨ c ∈ (collectCodes seen lines).2) := by
  induction lines generalizing seen with
  | nil => simp [collectCodes]
  | cons l tl ih =>
    simp only [collectCodes]
    split_ifs with h1 h2 h3
    · exact ih seen
    · exact ih seen
    · exact ih seen
    · have hre : codeLikeRe (pyStrip l) = true := by
        simpa using h2
      have hgood := codeLikeRe_pyStrip hre
      have ihr := ih (pyStrip l :: seen)
      refine ⟨?_, ?_, ?_⟩
      · intro c hc
        rcases List.mem_cons.1 hc with rfl | hmem
        · exact ⟨hgood.1, hgood.2, h3⟩
        · have := (ihr.1 c hmem)
          exact ⟨this.1, this.2.1, fun hs => this.2.2 (by simp [hs])⟩
      · refine List.Nodup.cons ?_ ihr.2.1
        intro hmem
        exact (ihr.1 _ hmem).2.2 (by simp)
      · intro c
        rw [ihr.2.2 c]
        simp only [List.mem_cons]
        tauto


theorem singleRowCodes_spec (lines : List Str) (seen : List (Str × List Str))
    (vals : List Str) :
    (∀ p ∈ (singleRowCodes seen vals lines).2,
      codeLikeCore p.1 = true ∧ p.1 ≠ [] ∧ p.2 = vals ∧ p ∉ seen) ∧
    (singleRowCodes seen vals lines).2.Nodup ∧
    (∀ p, p ∈ (singleRowCodes seen vals lines).1 ↔
      p ∈ seen ∨ p ∈ (singleRowCodes seen vals lines).2) := by
  induction lines generalizing seen with
  | nil => simp [singleRowCodes]
  | cons l tl ih =>
    simp only [singleRowCodes]
    split_ifs with h1 h2 h3
    · exact ih seen
    · exact ih seen
    · exact ih seen
    · have hre : codeLikeRe (pyStrip l) = true := by
        simpa using h2
      have hgood := codeLikeRe_pyStrip hre
      have ihr := ih ((pyStrip l, vals) :: seen)
      refine ⟨?_, ?_, ?_⟩
      · intro p hp
        rcases List.mem_cons.1 hp with rfl | hmem
        · exact ⟨hgood.1, hgood.2, rfl, h3⟩
        · have := (ihr.1 p hmem)
          exact ⟨this.1, this.2.1, this.2.2.1, fun hs => this.2.2.2 (by simp [hs])⟩
      · refine List.Nodup.cons ?_ ihr.2.1
        intro hmem
        exact (ihr.1 _ hmem).2.2.2 (by simp)
      · intro p
        rw [ihr.2.2 p]
        simp only [List.mem_cons]
        tauto

theorem singleColLoop_spec (d : Grid) (cc : Nat) (oi : List Nat)
    (seen : List (Str × List Str)) :
    (∀ p ∈ singleColLoop cc oi seen d,
      (codeLikeCore p.1 = true ∧ p.1 ≠ []) ∧ p ∉ seen) ∧
    (singleColLoop cc oi seen d).Nodup := by
  induction d generalizing seen with
  | nil => simp [singleColLoop]
  | cons row tl ih =>
    simp only [singleColLoop]
    split_ifs with h1
    · exact ih seen
    · have hsr := singleRowCodes_spec ((cellAt row cc).splitOn '\n') seen
        (oi.map (cellAt row))
      have ihr := ih (singleRowCodes seen (oi.map (cellAt row))
        ((cellAt row cc).splitOn '\n')).1
      constructor
      · intro p hp
        rcases List.mem_append.1 hp with hmem | hmem
        · have := hsr.1 p hmem
          exact ⟨⟨this.1, this.2.1⟩, this.2.2.2⟩
        · have := ihr.1 p hmem
          refine ⟨this.1, fun hs => this.2 ?_⟩
          rw [hsr.2.2 p]
          exact Or.inl hs
      · refine List.Nodup.append hsr.2.1 ihr.2 ?_
        intro p hp1 hp2
        exact (ihr.1 p hp2).2 ((hsr.2.2 p).2 (Or.inr hp1))

theorem multiColLoop_spec (d : Grid) (note : Str) (seen : List Str)
    (rows : List (Str × List Str))
    (hrows : ∀ p ∈ rows, (codeLikeCore p.1 = true ∧ p.1 ≠ []) ∧ p.1 ∈ seen)
    (hnd : (rows.map Prod.fst).Nodup) :
    (∀ p ∈ (multiColLoop note seen rows d).2,
      codeLikeCore p.1 = true ∧ p.1 ≠ []) ∧
    ((multiColLoop note seen rows d).2.map Prod.fst).Nodup := by
  induction d generalizing note seen rows with
  | nil =>
    exact ⟨fun p hp => (hrows p hp).1, hnd⟩
  | cons row tl ih =>
    rw [multiColLoop]
    split
    · exact ih note seen rows hrows hnd
    · rename_i c restNE hne
      split_ifs with hb
      · exact ih (collapseWS c) seen rows hrows hnd
      · set lines := ((row.map (fun cl => pyStrip (cellStr cl))).filter
          (fun cl => !(cl == []))).flatMap (fun cl => cl.splitOn '\n') with hl
        have hcc := collectCodes_spec lines seen
        apply ih note (collectCodes seen lines).1
        · intro p hp
          rcases List.mem_append.1 hp with hmem | hmem
          · have := hrows p hmem
            exact ⟨this.1, ((hcc.2.2 p.1).2 (Or.inl this.2))⟩
          · obtain ⟨cd, hcd, rfl⟩ := List.mem_map.1 hmem
            have := hcc.1 cd hcd
            exact ⟨⟨this.1, this.2.1⟩, (hcc.2.2 cd).2 (Or.inr hcd)⟩
        · rw [List.map_append]
          refine List.Nodup.append hnd ?_ ?_
          · have : (List.map Prod.fst (List.map
                (fun cd => (cd, ([] : List Str))) (collectCodes seen lines).2)) =
                (collectCodes seen lines).2 := by
              rw [List.map_map]
              have hfun : (Prod.fst ∘ fun cd : Str => (cd, ([] : List Str))) = id := by
                funext x
                rfl
              rw [hfun, List.map_id]
            rw [this]
            exact hcc.2.1
          · intro x hx1 hx2
            simp only [List.map_map, List.mem_map] at hx2
            obtain ⟨cd, hcd, rfl⟩ := hx2
            obtain ⟨p, hp, rfl⟩ := List.mem_map.1 hx1
            exact (hcc.1 _ hcd).2.2 (hrows p hp).2

theorem multiColExtract_spec (d : Grid) :
    (∀ p ∈ (multiColExtract d).2, codeLikeCore p.1 = true ∧ p.1 ≠ []) ∧
    (multiColExtract d).2.Nodup := by
  have h := multiColLoop_spec d [] [] [] (by simp) (by simp)
  rw [multiColExtract]
  split_ifs with h1
  · exact ⟨h.1, List.Nodup.of_map _ h.2⟩
  · constructor
    · intro p hp
      obtain ⟨q, hq, rfl⟩ := List.mem_map.1 hp
      exact h.1 q hq
    · apply List.Nodup.of_map Prod.fst
      have : (List.map Prod.fst ((multiColLoop [] [] [] d).2.map
          (fun p => (p.1, [(multiColLoop [] [] [] d).1])))) =
          List.map Prod.fst (multiColLoop [] [] [] d).2 := by
        simp
      rw [this]
      exact h.2

theorem processTable_rows_shape (g : Grid) (t : RawTable)
    (h : processTable g = some t) :
    (∃ d : Grid, t.rows = (multiColExtract d).2) ∨
    (∃ (cc : Nat) (oi : List Nat) (d : Grid),
      t.rows = singleColLoop cc oi [] d) := by
  cases g with
  | nil => simp [processTable] at h
  | cons r0 rest =>
    simp only [processTable] at h
    split at h
    · exact absurd h (by simp)
    · split at h
      · exact absurd h (by simp)
      · split at h
        · exact absurd h (by simp)
        · repeat' (split at h)
          all_goals
            first
            | (simp at h; done)
            | (left; exact ⟨_, by rw [← Option.some.inj h]⟩)
            | (right; exact ⟨_, _, _, by rw [← Option.some.inj h]⟩)

theorem processTable_cont_codeHeader (g : Grid) (t : RawTable)
    (hloc : locateCodeCol g = some (0, true))
    (h : processTable g = some t) :
    t.codeHeader = contCodeHeader g := by
  cases g with
  | nil => simp [processTable] at h
  | cons r0 rest =>
    simp only [processTable] at h
    split at h
    · exact absurd h (by simp)
    · split at h
      · exact absurd h (by simp)
      · split at h
        · exact absurd h (by simp)
        · rename_i cb heq
          rw [hloc] at heq
          injection heq with heq
          subst heq
          repeat' (split at h)
          all_goals
            first
            | (simp at h; done)
            | (rw [← Option.some.inj h]; done)
            | simp_all

theorem processTable_rows_good (g : Grid) (t : RawTable)
    (h : processTable g = some t) :
    ∀ p ∈ t.rows, codeLikeCore p.1 = true ∧ p.1 ≠ [] := by
  rcases processTable_rows_shape g t h with ⟨d, hd⟩ | ⟨cc, oi, d, hd⟩
  · rw [hd]
    exact (multiColExtract_spec d).1
  · rw [hd]
    intro p hp
    exact ((singleColLoop_spec d cc oi []).1 p hp).1

/-! ### Claim C7: deduplication within one table -/

/-- C7: within one extracted table, a repeated `(code, otherValues)` key is
dropped — the row list of every table the normalizer produces has no
duplicate entry; and on the Scenario A grid (the same code and description
twice) the engine outputs exactly one row `99213, CPT, Office visit`. -/
theorem dedup_within_table (g : Grid) (t : RawTable)
    (h : processTable g = some t) :
    t.rows.Nodup ∧
    extractTables [gScenarioA] =
      some ([(r"Code").data, (r"Code Type").data, (r"Description").data],
        [[(r"99213").data, (r"CPT").data, (r"Office visit").data]]) := by
  constructor
  · rcases processTable_rows_shape g t h with ⟨d, hd⟩ | ⟨cc, oi, d, hd⟩
    · rw [hd]
      exact (multiColExtract_spec d).2
    · rw [hd]
      exact (singleColLoop_spec d cc oi []).2
  · decide

/-- C7 witness: the theorem at the Scenario A grid. -/
theorem dedup_within_table_witness :
    processTable gScenarioA =
      some ⟨(r"CPT Code").data, [(r"Description").data],
        [((r"99213").data, [(r"Office visit").data])]⟩ ∧
    ([((r"99213").data, [(r"Office visit").data])] :
      List (Str × List Str)).Nodup :=
  ⟨by decide,
    (dedup_within_table gScenarioA
      ⟨(r"CPT Code").data, [(r"Description").data],
        [((r"99213").data, [(r"Office visit").data])]⟩ (by decide)).1⟩

/-! ### Claim C8: every produced code matches the broad code shape -/

/-- C8: every data row the engine outputs starts with a code that matches
the broad code shape (optionally 1-2 letters then 3-5 digits) and is
non-empty; cell lines that do not match the shape are never emitted. -/
theorem produced_codes_match_shape (gs : List Grid) (hdrs : List Str)
    (rows : List (List Str)) (h : extractTables gs = some (hdrs, rows)) :
    ∀ orow ∈ rows, ∃ c rest, orow = c :: rest ∧
      codeLikeCore c = true ∧ c ≠ [] := by
  simp only [extractTables] at h
  split at h
  · exact absurd h (by simp)
  · have h2 := Option.some.inj h
    intro orow horow
    have hrows : orow ∈ (unifyTables (gs.filterMap processTable)).2 := by
      rw [h2]
      exact horow
    simp only [unifyTables, List.mem_flatMap, List.mem_map] at hrows
    obtain ⟨t, ht, cv, hcv, heq⟩ := hrows
    obtain ⟨g, hg, hpt⟩ := List.mem_filterMap.1 ht
    have hgood := processTable_rows_good g t hpt cv hcv
    exact ⟨cv.1, _, heq.symm, hgood.1, hgood.2⟩

/-- C8 witness: the theorem at a document holding the Scenario A grid. -/
theorem produced_codes_match_shape_witness :
    extractTables [gScenarioA] =
      some ([(r"Code").data, (r"Code Type").data, (r"Description").data],
        [[(r"99213").data, (r"CPT").data, (r"Office visit").data]]) ∧
    ∀ orow ∈ [[(r"99213").data, (r"CPT").data, (r"Office visit").data]],
      ∃ c rest, orow = c :: rest ∧ codeLikeCore c = true ∧ c ≠ [] :=
  ⟨by decide,
    produced_codes_match_shape [gScenarioA]
      [(r"Code").data, (r"Code Type").data, (r"Description").data]
      [[(r"99213").data, (r"CPT").data, (r"Office visit").data]]
      (by decide)⟩

/-! ### Claim C10: continuation tables inherit the first code's type -/

/-- A continuation grid whose first code is HCPCS-shaped and whose second
code is CPT-shaped. -/
def gContinuation : Grid :=
  [[some ((r"A1234").data), some ((r"w").data)],
   [some ((r"99213").data), some ((r"g").data)]]

/-- C10: for a headerless continuation table, the recorded header hint is
the type label computed by shape from the first code-like first-column
value, and classifying any code against that hint returns that same label;
hence every code of a continuation table receives the first code's type —
on `gContinuation`, both A1234 and the CPT-shaped 99213 come out HCPCS. -/
theorem continuation_hint_propagates (g : Grid) (t : RawTable) (v : Str)
    (hloc : locateCodeCol g = some (0, true))
    (hpt : processTable g = some t)
    (hfc : firstContCode g = some v) :
    t.codeHeader = classify_code v [] ∧
    (∀ code : Str, classify_code code t.codeHeader = classify_code v []) ∧
    extractTables [gContinuation] =
      some ([(r"Code").data, (r"Code Type").data, (r"Description").data],
        [[(r"A1234").data, (r"HCPCS").data, (r"w").data],
         [(r"99213").data, (r"HCPCS").data, (r"g").data]]) := by
  have hch : t.codeHeader = classify_code v [] := by
    rw [processTable_cont_codeHeader g t hloc hpt, contCodeHeader, hfc]
  refine ⟨hch, ?_, by decide⟩
  intro code
  rw [hch, classify_code_fix]

/-- C10 witness: the theorem at `gContinuation` itself. -/
theorem continuation_hint_propagates_witness :
    locateCodeCol gContinuation = some (0, true) ∧
    processTable gContinuation =
      some ⟨(r"HCPCS").data, [(r"Description").data],
        [((r"A1234").data, [(r"w").data]),
         ((r"99213").data, [(r"g").data])]⟩ ∧
    firstContCode gContinuation = some ((r"A1234").data) ∧
    RawTable.codeHeader
        ⟨(r"HCPCS").data, [(r"Description").data],
          [((r"A1234").data, [(r"w").data]),
           ((r"99213").data, [(r"g").data])]⟩ =
      classify_code ((r"A1234").data) [] :=
  ⟨by decide, by decide, by decide,
    (continuation_hint_propagates gContinuation
      ⟨(r"HCPCS").data, [(r"Description").data],
        [((r"A1234").data, [(r"w").data]),
         ((r"99213").data, [(r"g").data])]⟩
      ((r"A1234").data) (by decide) (by decide) (by decide)).1⟩

/-! ### Claim C6: annotation rows in multi-column mode -/

/-- The text of an annotation row: its first non-empty stripped cell. -/
def annText (row : Row) : Str :=
  ((row.map (fun c => pyStrip (cellStr c))).filter
    (fun c => !(c == []))).headD []

theorem isAnnotationRow_eq {row : Row} {c : Str} {restNE : List Str}
    (hne : (row.map (fun x => pyStrip (cellStr x))).filter
      (fun x => !(x == [])) = c :: restNE) :
    isAnnotationRow row =
      (restNE.isEmpty && !codeLikeRe (pyStrip (firstLine c))) := by
  simp only [isAnnotationRow]
  rw [hne]

theorem isAnnotationRow_elim {row : Row} (h : isAnnotationRow row = true) :
    (row.map (fun c => pyStrip (cellStr c))).filter (fun c => !(c == [])) =
      [annText row] ∧
    codeLikeRe (pyStrip (firstLine (annText row))) = false := by
  cases hne : (row.map (fun c => pyStrip (cellStr c))).filter
      (fun c => !(c == [])) with
  | nil =>
    rw [isAnnotationRow, hne] at h
    simp at h
  | cons c restNE =>
    rw [isAnnotationRow_eq hne] at h
    simp only [Bool.and_eq_true, Bool.not_eq_true', List.isEmpty_iff] at h
    have hc : annText row = c := by
      rw [annText, hne]
      rfl
    exact ⟨by rw [h.1, hc], by rw [hc]; exact h.2⟩

theorem multiColLoop_note_const (d : Grid) (note : Str) (seen : List Str)
    (rows : List (Str × List Str))
    (h : ∀ r ∈ d, isAnnotationRow r = false) :
    (multiColLoop note seen rows d).1 = note := by
  induction d generalizing note seen rows with
  | nil => rfl
  | cons row tl ih =>
    rw [multiColLoop]
    split
    · exact ih note seen rows (fun r hr => h r (by simp [hr]))
    · rename_i c restNE hne
      split_ifs with hb
      · exfalso
        have hrow := h row (by simp)
        rw [isAnnotationRow_eq hne] at hrow
        rw [hrow] at hb
        exact absurd hb (by simp)
      · exact ih note _ _ (fun r hr => h r (by simp [hr]))

theorem multiColLoop_note_after (pre post : Grid) (ann : Row)
    (hann : isAnnotationRow ann = true)
    (hpost : ∀ r ∈ post, isAnnotationRow r = false) :
    ∀ (note : Str) (seen : List Str) (rows : List (Str × List Str)),
    (multiColLoop note seen rows (pre ++ ann :: post)).1 =
      collapseWS (annText ann) := by
  induction pre with
  | nil =>
    intro note seen rows
    obtain ⟨hfe, hcl⟩ := isAnnotationRow_elim hann
    rw [List.nil_append, multiColLoop]
    split
    · rename_i hne
      rw [hfe] at hne
      exact absurd hne (by simp)
    · rename_i c restNE hne
      rw [hfe] at hne
      injection hne with hc hrest
      subst hc
      subst hrest
      rw [if_pos (by simp [hcl])]
      exact multiColLoop_note_const post _ seen rows hpost
  | cons row pl ih =>
    intro note seen rows
    rw [List.cons_append, multiColLoop]
    split
    · exact ih note seen rows
    · split_ifs with hb
      · exact ih _ seen rows
      · exact ih note _ _

theorem annText_ne_nil {row : Row} (h : isAnnotationRow row = true) :
    annText row ≠ [] := by
  obtain ⟨hfe, _⟩ := isAnnotationRow_elim h
  have hmem : annText row ∈ (row.map (fun c => pyStrip (cellStr c))).filter
      (fun c => !(c == [])) := by
    rw [hfe]
    simp
  have := (List.mem_filter.1 hmem).2
  simpa using this

/-- Scenario E grid: a header naming a code column, an annotation row, then
three single-cell code rows in the second (unlabeled) column, making the
grid a multi-column-codes table. -/
def gScenarioE : Grid :=
  [[some ((r"Codes").data), some ((r"").data)],
   [some ((r"Note for all").data), some ((r"").data)],
   [some ((r"").data), some ((r"11111").data)],
   [some ((r"").data), some ((r"22222").data)],
   [some ((r"").data), some ((r"33333").data)]]

/-- A multi-column grid with two annotation rows: `first note` before code
11111 and `second note` before code 22222. -/
def gTwoNotes : Grid :=
  [[some ((r"Codes").data), some ((r"").data)],
   [some ((r"first note").data), some ((r"").data)],
   [some ((r"").data), some ((r"11111").data)],
   [some ((r"second note").data), some ((r"").data)],
   [some ((r"").data), some ((r"22222").data)]]

/-- C6 counterexample: with two annotation rows, the earlier one's text is
not attached to the rows extracted after it — in `gTwoNotes` the code
11111 extracted between the two annotation rows carries `second note`, not
`first note`, so an annotation row's text is not always attached to every
row of the table. -/
theorem annotation_note_overwritten_cex :
    extractTables [gTwoNotes] =
      some ([(r"Code").data, (r"Code Type").data, (r"Note").data],
        [[(r"11111").data, (r"CPT").data, (r"second note").data],
         [(r"22222").data, (r"CPT").data, (r"second note").data]]) ∧
    ((r"second note").data : Str) ≠ (r"first note").data := by
  constructor
  · decide
  · decide

/-- C6 (amended): in multi-column-codes mode, each annotation row
overwrites the pending note, so the text attached as the `Note` column to
every extracted row is the last annotation row's; for an annotation row
followed by no further annotation row its whitespace-collapsed text is
attached to every row extracted before and after it, and in the Scenario E
table all three codes carry the annotation text. -/
theorem annotation_note_attached (pre post : Grid) (ann : Row)
    (hann : isAnnotationRow ann = true)
    (hpost : ∀ r ∈ post, isAnnotationRow r = false) :
    (multiColExtract (pre ++ ann :: post)).1 = [(r"Note").data] ∧
    (∀ p ∈ (multiColExtract (pre ++ ann :: post)).2,
      p.2 = [collapseWS (annText ann)]) ∧
    extractTables [gScenarioE] =
      some ([(r"Code").data, (r"Code Type").data, (r"Note").data],
        [[(r"11111").data, (r"CPT").data, (r"Note for all").data],
         [(r"22222").data, (r"CPT").data, (r"Note for all").data],
         [(r"33333").data, (r"CPT").data, (r"Note for all").data]]) := by
  have hnote : (multiColLoop [] [] [] (pre ++ ann :: post)).1 =
      collapseWS (annText ann) :=
    multiColLoop_note_after pre post ann hann hpost [] [] []
  have hne : collapseWS (annText ann) ≠ [] :=
    collapseWS_ne_nil (annText_ne_nil hann)
  refine ⟨?_, ?_, by decide⟩
  · rw [multiColExtract]
    rw [hnote]
    rw [if_neg hne]
  · intro p hp
    rw [multiColExtract] at hp
    rw [hnote] at hp
    rw [if_neg hne] at hp
    obtain ⟨q, hq, rfl⟩ := List.mem_map.1 hp
    rfl

/-- C6 witness: the amended theorem at the Scenario E table's data rows
(the annotation row followed by the three code rows). -/
theorem annotation_note_attached_witness :
    isAnnotationRow [some ((r"Note for all").data), some ((r"").data)] =
      true ∧
    (multiColExtract
      ([] ++ [some ((r"Note for all").data), some ((r"").data)] ::
        [[some ((r"").data), some ((r"11111").data)],
         [some ((r"").data), some ((r"22222").data)],
         [some ((r"").data), some ((r"33333").data)]])).1 =
      [(r"Note").data] :=
  ⟨by decide,
    (annotation_note_attached []
      [[some ((r"").data), some ((r"11111").data)],
       [some ((r"").data), some ((r"22222").data)],
       [some ((r"").data), some ((r"33333").data)]]
      [some ((r"Note for all").data), some ((r"").data)]
      (by decide) (by decide)).1⟩

/-! ### Claim C4: uniqueness of other column names within one table -/

/-- A grid with two distinct non-code columns carrying the same header
text. -/
def gDupHeader : Grid :=
  [[some ((r"Code").data), some ((r"Info").data), some ((r"Info").data)],
   [some ((r"12345").data), some ((r"a").data), some ((r"b").data)]]

/-- C4 counterexample: the normalizer produces a CandidateTable whose
other column names are `Info, Info` — a duplicate within one table — and
unifying it keeps only the later duplicate's value (`b`), losing `a`. -/
theorem otherHeaders_duplicate_cex :
    processTable gDupHeader =
      some ⟨(r"Code").data, [(r"Info").data, (r"Info").data],
        [((r"12345").data, [(r"a").data, (r"b").data])]⟩ ∧
    ¬ ([(r"Info").data, (r"Info").data] : List Str).Nodup ∧
    extractTables [gDupHeader] =
      some ([(r"Code").data, (r"Code Type").data, (r"Info").data],
        [[(r"12345").data, (r"CPT").data, (r"b").data]]) :=
  ⟨by decide, by decide, by decide⟩

/-- C4 (amended): other column names need not be unique within one table —
distinct single-code-column columns sharing a header text (or several
unlabeled continuation columns, all labeled Description) repeat, and
name-based mapping then keeps only the last duplicate's value; tables
extracted in multi-column-codes mode do have unique other column names
(the list is empty or exactly `Note`). -/
theorem multiCol_otherHeaders_unique (d : Grid) :
    ((multiColExtract d).1 = [] ∨ (multiColExtract d).1 = [(r"Note").data]) ∧
    (multiColExtract d).1.Nodup := by
  rw [multiColExtract]
  split_ifs with h
  · exact ⟨Or.inl rfl, by simp⟩
  · exact ⟨Or.inr rfl, by simp⟩

/-! ### Claim C3: schema unification -/

/-- First-seen deduplication as the spec words it: keep the first
occurrence of each name, in encounter order (case-sensitive equality). -/
def dedupFirstSeen : List Str → List Str
  | [] => []
  | h :: tl => h :: dedupFirstSeen (tl.filter (fun x => !(x == h)))
termination_by l => l.length
decreasing_by simpa using Nat.lt_succ_of_le (List.length_filter_le _ _)

theorem mem_dedupFirstSeen : ∀ (l : List Str) (x : Str),
    x ∈ dedupFirstSeen l ↔ x ∈ l := by
  intro l
  induction l using dedupFirstSeen.induct with
  | case1 => simp [dedupFirstSeen]
  | case2 h tl ih =>
    intro x
    rw [dedupFirstSeen]
    simp only [List.mem_cons, ih, List.mem_filter]
    by_cases hx : x = h <;> simp [hx]

theorem nodup_dedupFirstSeen : ∀ (l : List Str),
    (dedupFirstSeen l).Nodup := by
  intro l
  induction l using dedupFirstSeen.induct with
  | case1 => simp [dedupFirstSeen]
  | case2 h tl ih =>
    rw [dedupFirstSeen]
    rw [List.nodup_cons]
    refine ⟨?_, ih⟩
    rw [mem_dedupFirstSeen]
    intro hmem
    have := (List.mem_filter.1 hmem).2
    simp at this

theorem unionLoop_append (l1 : List Str) : ∀ (st : List Str × List Str)
    (l2 : List Str), unionLoop st (l1 ++ l2) = unionLoop (unionLoop st l1) l2 := by
  induction l1 with
  | nil => intro st l2; rfl
  | cons h tl ih =>
    intro st l2
    rw [List.cons_append, unionLoop, unionLoop]
    split_ifs with hm
    · exact ih st l2
    · exact ih _ l2

theorem unionLoop_snd (l : List Str) : ∀ (seen acc : List Str),
    (∀ x : Str, x ∈ seen ↔ x ∈ acc) →
    (unionLoop (seen, acc) l).2 =
      acc ++ dedupFirstSeen (l.filter (fun x => !(decide (x ∈ acc)))) := by
  induction l with
  | nil =>
    intro seen acc _
    simp [unionLoop, dedupFirstSeen]
  | cons h tl ih =>
    intro seen acc hinv
    rw [unionLoop]
    dsimp only
    by_cases hm : h ∈ seen
    · rw [if_pos hm]
      have hacc : h ∈ acc := (hinv h).1 hm
      rw [ih seen acc hinv, List.filter_cons, if_neg (by simp [hacc])]
    · rw [if_neg hm]
      have hacc : h ∉ acc := fun hc => hm ((hinv h).2 hc)
      have hinv2 : ∀ x : Str, x ∈ h :: seen ↔ x ∈ acc ++ [h] := by
        intro x
        simp only [List.mem_cons, List.mem_append, List.mem_singleton, hinv x]
        tauto
      rw [ih (h :: seen) (acc ++ [h]) hinv2]
      rw [List.filter_cons, if_pos (by simp [hacc])]
      rw [dedupFirstSeen, List.filter_filter]
      have hpred : (fun x : Str => !(decide (x ∈ acc ++ [h]))) =
          (fun x : Str => ((!(x == h)) && (!(decide (x ∈ acc))))) := by
        funext x
        by_cases h1 : x = h <;> by_cases h2 : x ∈ acc <;>
          simp [h1, h2, List.mem_append]
      rw [hpred, List.append_assoc]
      rfl

theorem buildUnion_eq (ts : List RawTable) :
    buildUnion ts = dedupFirstSeen (ts.flatMap RawTable.otherHeaders) := by
  have key : ∀ (us : List RawTable) (st : List Str × List Str),
      us.foldl (fun s t => unionLoop s t.otherHeaders) st =
        unionLoop st (us.flatMap RawTable.otherHeaders) := by
    intro us
    induction us with
    | nil => intro st; rfl
    | cons t tl ih =>
      intro st
      rw [List.foldl_cons, List.flatMap_cons, unionLoop_append]
      exact ih _
  rw [buildUnion, key, unionLoop_snd _ [] [] (by simp)]
  simp

theorem mem_buildUnion (ts : List RawTable) (t : RawTable) (ht : t ∈ ts)
    (h : Str) (hh : h ∈ t.otherHeaders) : h ∈ buildUnion ts := by
  rw [buildUnion_eq, mem_dedupFirstSeen, List.mem_flatMap]
  exact ⟨t, ht, hh⟩

theorem listIdxOf_lt_length {x : Str} : ∀ {l : List Str}, x ∈ l →
    listIdxOf x l < l.length := by
  intro l
  induction l with
  | nil =>
    intro h
    simp at h
  | cons a tl ih =>
    intro h
    rw [listIdxOf]
    split_ifs with ha
    · simp
    · have hm : x ∈ tl := by
        rcases List.mem_cons.1 h with rfl | hm
        · exact absurd rfl ha
        · exact hm
      simpa using ih hm

theorem getD_listIdxOf {x : Str} : ∀ {l : List Str}, x ∈ l →
    l.getD (listIdxOf x l) [] = x := by
  intro l
  induction l with
  | nil =>
    intro h
    simp at h
  | cons a tl ih =>
    intro h
    rw [listIdxOf]
    split_ifs with ha
    · exact ha
    · have hm : x ∈ tl := by
        rcases List.mem_cons.1 h with rfl | hm
        · exact absurd rfl ha
        · exact hm
      show tl.getD (listIdxOf x tl) [] = x
      exact ih hm

/-- Proof helper: the value-writing fold of the flattening loop over an
arbitrary initial row. -/
def writeVals (all ohs vals init : List Str) : List Str :=
  (ohs.zip vals).foldl (fun acc p => acc.set (listIdxOf p.1 all) p.2) init

theorem unifiedVals_eq_writeVals (all ohs vals : List Str) :
    unifiedVals all ohs vals =
      writeVals all ohs vals (List.replicate all.length []) := rfl

theorem writeVals_length (all : List Str) : ∀ (ohs vals init : List Str),
    (writeVals all ohs vals init).length = init.length := by
  intro ohs
  induction ohs with
  | nil => intro vals init; rfl
  | cons hh tl ih =>
    intro vals init
    cases vals with
    | nil => rfl
    | cons v vt =>
      show (writeVals all tl vt (init.set (listIdxOf hh all) v)).length = _
      rw [ih vt _, List.length_set]

theorem writeVals_getD_not_hit (all : List Str) :
    ∀ (ohs vals init : List Str) (p : Nat),
    (∀ x ∈ ohs, listIdxOf x all ≠ p) →
    (writeVals all ohs vals init).getD p [] = init.getD p [] := by
  intro ohs
  induction ohs with
  | nil => intro vals init p _; rfl
  | cons hh tl ih =>
    intro vals init p h
    cases vals with
    | nil => rfl
    | cons v vt =>
      show (writeVals all tl vt (init.set (listIdxOf hh all) v)).getD p [] = _
      rw [ih vt _ p (fun x hx => h x (by simp [hx]))]
      have hne : listIdxOf hh all ≠ p := h hh (by simp)
      rw [List.getD_eq_getElem?_getD, List.getElem?_set_ne hne,
        ← List.getD_eq_getElem?_getD]

theorem writeVals_getD_hit (all : List Str) :
    ∀ (ohs vals init : List Str) (j : Nat),
    ohs.Nodup → (∀ x ∈ ohs, x ∈ all) →
    vals.length = ohs.length → init.length = all.length →
    j < ohs.length →
    (writeVals all ohs vals init).getD (listIdxOf (ohs.getD j []) all) [] =
      vals.getD j [] := by
  intro ohs
  induction ohs with
  | nil =>
    intro vals init j _ _ _ _ hj
    simp at hj
  | cons hh tl ih =>
    intro vals init j hnd hsub hlen hinit hj
    cases vals with
    | nil => simp at hlen
    | cons v vt =>
      show (writeVals all tl vt (init.set (listIdxOf hh all) v)).getD _ [] = _
      cases j with
      | zero =>
        have hq : (hh :: tl).getD 0 [] = hh := rfl
        rw [hq]
        rw [writeVals_getD_not_hit all tl vt _ _ ?misses]
        case misses =>
          intro x hx heq
          have hx_all := hsub x (by simp [hx])
          have hh_all := hsub hh (by simp)
          have hxe : x = hh := by
            have h1 := getD_listIdxOf hx_all
            have h2 := getD_listIdxOf hh_all
            rw [← h1, ← h2, heq]
          exact (List.nodup_cons.1 hnd).1 (hxe ▸ hx)
        have hin : listIdxOf hh all < init.length := by
          rw [hinit]
          exact listIdxOf_lt_length (hsub hh (by simp))
        rw [List.getD_eq_getElem?_getD, List.getElem?_set_self hin]
        rfl
      | succ n =>
        have hq : (hh :: tl).getD (n + 1) [] = tl.getD n [] := rfl
        have hq2 : (v :: vt).getD (n + 1) [] = vt.getD n [] := rfl
        rw [hq, hq2]
        exact ih vt (init.set (listIdxOf hh all) v) n (List.nodup_cons.1 hnd).2
          (fun x hx => hsub x (by simp [hx])) (by simpa using hlen)
          (by rw [List.length_set, hinit]) (by simpa using hj)

theorem unifiedVals_hit (all ohs vals : List Str) (j : Nat)
    (hnd : ohs.Nodup) (hsub : ∀ x ∈ ohs, x ∈ all)
    (hlen : vals.length = ohs.length) (hj : j < ohs.length) :
    (unifiedVals all ohs vals).getD (listIdxOf (ohs.getD j []) all) [] =
      vals.getD j [] := by
  rw [unifiedVals_eq_writeVals]
  exact writeVals_getD_hit all ohs vals _ j hnd hsub hlen
    (List.length_replicate _ _) hj

theorem unifiedVals_miss (all ohs vals : List Str) (p : Nat)
    (hsub : ∀ x ∈ ohs, x ∈ all)
    (hp : all.getD p [] ∉ ohs) :
    (unifiedVals all ohs vals).getD p [] = [] := by
  rw [unifiedVals_eq_writeVals]
  rw [writeVals_getD_not_hit]
  · rw [List.getD_eq_getElem?_getD, List.getElem?_replicate]
    split_ifs <;> rfl
  · intro x hx heq
    apply hp
    have hx_all := hsub x hx
    rw [← heq, getD_listIdxOf hx_all]
    exact hx

/-- C3: for every list of accepted tables (whose per-table column names
are unique, per the data model), the unified header list is `Code`,
`Code Type` followed by the first-seen deduplicated union of all other
column names; the output has exactly one row per extracted data row; no
table's column name is dropped from the headers; each data row appears as
an output row; each row's values sit at their columns' global positions
with the empty string at every column the table lacks; and unification is
deterministic. -/
theorem schema_unification_correct (ts : List RawTable)
    (hnd : ∀ t ∈ ts, t.otherHeaders.Nodup) :
    (unifyTables ts).1 =
      (r"Code").data :: (r"Code Type").data ::
        dedupFirstSeen (ts.flatMap RawTable.otherHeaders) ∧
    (unifyTables ts).2.length = (ts.map (fun t => t.rows.length)).sum ∧
    (∀ t ∈ ts, ∀ h ∈ t.otherHeaders, h ∈ (unifyTables ts).1) ∧
    (∀ t ∈ ts, ∀ cv ∈ t.rows,
      (cv.1 :: classify_code cv.1 t.codeHeader ::
        unifiedVals (buildUnion ts) t.otherHeaders cv.2) ∈
        (unifyTables ts).2) ∧
    (∀ t ∈ ts, ∀ cv : Str × List Str, cv ∈ t.rows →
      cv.2.length = t.otherHeaders.length →
      (∀ j : Nat, j < t.otherHeaders.length →
        (unifiedVals (buildUnion ts) t.otherHeaders cv.2).getD
          (listIdxOf (t.otherHeaders.getD j []) (buildUnion ts)) [] =
          cv.2.getD j []) ∧
      (∀ p : Nat, (buildUnion ts).getD p [] ∉ t.otherHeaders →
        (unifiedVals (buildUnion ts) t.otherHeaders cv.2).getD p [] = [])) ∧
    unifyTables ts = unifyTables ts := by
  refine ⟨?_, ?_, ?_, ?_, ?_, rfl⟩
  · show (r"Code").data :: (r"Code Type").data :: buildUnion ts = _
    rw [buildUnion_eq]
  · show (ts.flatMap _).length = _
    rw [List.length_flatMap]
    congr 1
    apply List.map_congr_left
    intro t _
    simp [Function.comp]
  · intro t ht h hh
    show h ∈ (r"Code").data :: (r"Code Type").data :: buildUnion ts
    simp only [List.mem_cons]
    exact Or.inr (Or.inr (mem_buildUnion ts t ht h hh))
  · intro t ht cv hcv
    show _ ∈ ts.flatMap _
    rw [List.mem_flatMap]
    refine ⟨t, ht, ?_⟩
    rw [List.mem_map]
    exact ⟨cv, hcv, rfl⟩
  · intro t ht cv hcv hlen
    constructor
    · intro j hj
      exact unifiedVals_hit (buildUnion ts) t.otherHeaders cv.2 j
        (hnd t ht) (fun x hx => mem_buildUnion ts t ht x hx) hlen hj
    · intro p hp
      exact unifiedVals_miss (buildUnion ts) t.otherHeaders cv.2 p
        (fun x hx => mem_buildUnion ts t ht x hx) hp

/-- First table of the C3 witness. -/
def tW1 : RawTable :=
  ⟨(r"CPT Code").data, [(r"Description").data],
    [((r"99213").data, [(r"x").data])]⟩

/-- Second table of the C3 witness, sharing one column name with the
first. -/
def tW2 : RawTable :=
  ⟨(r"Revenue Code").data, [(r"Rate").data, (r"Description").data],
    [((r"0651").data, [(r"5").data, (r"y").data])]⟩

/-- C3 witness: the theorem at two concrete tables with overlapping column
sets. -/
theorem schema_unification_correct_witness :
    (∀ t ∈ [tW1, tW2], t.otherHeaders.Nodup) ∧
    (unifyTables [tW1, tW2]).1 =
      (r"Code").data :: (r"Code Type").data ::
        dedupFirstSeen ([tW1, tW2].flatMap RawTable.otherHeaders) :=
  ⟨by decide, (schema_unification_correct [tW1, tW2] (by decide)).1⟩

end App
